import Mathlib

set_option maxRecDepth 4000

/-!
Verification of the hardware- and device-discovery layer of WasabiOS.

This file gives a shallow embedding, in Lean, of the Rust code under
src/: the bit-extraction utilities (src/bits.rs), the ACPI root-table
walker and typed views (src/acpi.rs), and the USB descriptor model,
enumeration protocol and driver selection (src/usb.rs).  Machine
integers are modelled as Nat with explicit truncation (mod 2 pow w)
exactly where the Rust code truncates; fallible operations return
Option or an explicit outcome type; the panics that Rust indexing can
raise are modelled by explicit outcome constructors.  Rust release
builds mask a shift amount by the bit width of the shifted type; the
embedding applies the same mask where a shift amount can reach it.
-/

/-! ## Bit extraction utility (src/bits.rs) -/

/-- Embedding of extract_bits (src/bits.rs, lines 3-12), instantiated at
T = u64 so that the conversions u64::from and TryInto::try_into are the
identity and the final unwrap_or is never taken.  The Rust code computes
a mask of min(63, width) one bits, casts shift to u32 (truncation mod
2 pow 32), and uses checked_shr, which yields 0 whenever the truncated
shift is at least 64. -/
def extract_bits (value shift width : Nat) : Nat :=
  let mask := (1 <<< min 63 width) - 1
  let s := shift % 4294967296
  (if 64 ≤ s then 0 else value >>> s) &&& mask

/-- Modelled from the spec: the value that claim C2 says extract_bits
returns, namely the value right-shifted by shift (0 if shift is at
least 64) and then masked to the width low bits, with an all-ones
64-bit mask when width is at least 64. -/
def extract_bits_claimed (value shift width : Nat) : Nat :=
  let mask := if 64 ≤ width then 2 ^ 64 - 1 else 2 ^ width - 1
  (if 64 ≤ shift then 0 else value >>> shift) &&& mask

/-- Claim C2 (counterexample): the code and the claimed formula differ.
At width 64 the code masks with 63 one bits, so a value with bit 63 set
extracts to 0, while the claim requires the full value back; and the
shift is truncated to u32 before the comparison with 64, so a shift of
2 pow 32 behaves like a shift of 0 instead of yielding 0. -/
theorem c2_counterexample :
    extract_bits (2 ^ 63) 0 64 ≠ extract_bits_claimed (2 ^ 63) 0 64 ∧
    extract_bits 1 (2 ^ 32) 1 ≠ extract_bits_claimed 1 (2 ^ 32) 1 := by
  constructor <;> decide

/-- Closed form of the embedded extract_bits in division and modulus. -/
theorem extract_bits_eq_div_mod (value shift width : Nat) :
    extract_bits value shift width =
      (if 64 ≤ shift % 4294967296 then 0
       else value / 2 ^ (shift % 4294967296)) % 2 ^ min 63 width := by
  unfold extract_bits
  rcases le_or_lt 64 (shift % 4294967296) with h | h <;>
    simp [h, Nat.not_le.mpr, Nat.shiftRight_eq_div_pow, Nat.shiftLeft_eq]

/-- Claim C2 (amended): extract_bits equals the value right-shifted by
the shift truncated to u32 (0 when that truncated shift is at least 64)
and then reduced modulo 2 pow min(63, width): the width is clamped to
63, so a 64-bit-wide request returns only the low 63 bits of the
remaining value. -/
theorem c2_extract_bits_amended (value shift width : Nat) :
    extract_bits value shift width =
      (if 64 ≤ shift % 4294967296 then 0
       else value / 2 ^ (shift % 4294967296)) % 2 ^ min 63 width :=
  extract_bits_eq_div_mod value shift width

/-- The little-endian integer denoted by a byte list: byte i contributes
its value scaled by 2 pow (8 i). -/
def leNat : List Nat → Nat
  | [] => 0
  | v :: rest => v + 256 * leNat rest

/-- The accumulation loop of extract_bits_from_le_bytes (src/bits.rs,
lines 45-49): for byte i of the selected range, the byte is widened to
u128, shifted left by i times 8 (Rust masks the u128 shift amount mod
128 in release builds; a debug build would panic once i times 8 reaches
128), shifted right by the residual bit offset, truncated to u64, and
ORed into the accumulator.  OR on Nat is associative and commutative,
so accumulating on the way out of the recursion equals the loop order. -/
def leFold (bit_shift : Nat) : List Nat → Nat → Nat
  | [], _ => 0
  | v :: rest, i =>
    ((((v <<< (8 * i % 128)) % 2 ^ 128) >>> bit_shift) % 2 ^ 64) |||
      leFold bit_shift rest (i + 1)

/-- Embedding of extract_bits_from_le_bytes (src/bits.rs, lines 34-52).
A zero width returns None; the byte range from shift div 8 up to
(shift + width + 7) div 8 is selected with slice get.  The sum
shift + width + 7 is computed on usize, so a release build wraps it
mod 2 pow 64 (a debug build panics); after a wrap the range end can
fall below its start, and slice get returns None exactly when the
start exceeds the end or the end exceeds the buffer length.  On a
selected range the loop above accumulates the bytes and extract_bits
is applied with shift 0 and the requested width. -/
def extract_bits_from_le_bytes (bytes : List Nat) (shift width : Nat) :
    Option Nat :=
  if width = 0 then none
  else
    let start := shift / 8
    let stop := (shift + width + 7) % 2 ^ 64 / 8
    let bit_shift := shift - start * 8
    if start ≤ stop ∧ stop ≤ bytes.length then
      some (extract_bits
        (leFold bit_shift ((bytes.drop start).take (stop - start)) 0) 0 width)
    else none

/-- Modelled from the spec: the result claim C4 describes, namely None
iff the width is zero or the buffer is shorter than
ceil((shift + width) / 8), and otherwise extract_bits applied to the
little-endian integer formed from the covered byte range, at residual
bit offset shift mod 8, with the requested width. -/
def extract_bits_from_le_bytes_claimed (bytes : List Nat) (shift width : Nat) :
    Option Nat :=
  if width = 0 ∨ bytes.length < (shift + width + 7) / 8 then none
  else
    some (extract_bits
      (leNat ((bytes.drop (shift / 8)).take ((shift + width + 7) / 8 - shift / 8)))
      (shift % 8) width)

/-- Claim C4 (counterexample): the code and the claimed semantics
differ twice.  On a 17-byte buffer whose covered range has 17 bytes,
the u128 left shift of byte 16 wraps its shift amount (16 times 8 is
128, masked to 0), so the code returns the wrapped byte at position 0
instead of the value of the little-endian integer.  And at shift 0
with width 2 pow 64 - 7, the usize sum shift + width + 7 wraps to 0 in
a release build, the byte range collapses to the empty range 0..0, and
the code returns Some 0 on the empty buffer where the claim demands
None because the buffer is far shorter than ceil((shift + width) / 8)
computed without wrapping (a debug build panics instead, which is not
None either). -/
theorem c4_counterexample :
    extract_bits_from_le_bytes (List.replicate 16 0 ++ [1]) 0 129 = some 1 ∧
    extract_bits_from_le_bytes_claimed (List.replicate 16 0 ++ [1]) 0 129 =
      some 0 ∧
    extract_bits_from_le_bytes [] 0 (2 ^ 64 - 7) = some 0 ∧
    extract_bits_from_le_bytes_claimed [] 0 (2 ^ 64 - 7) = none := by
  refine ⟨by decide, by decide, by decide, by decide⟩

/-- Truncating two summands that occupy disjoint bit ranges to 64 bits
and ORing them equals truncating their sum. -/
theorem or_mod_two_pow_add (A m k : Nat) (hA : A < 2 ^ k) :
    (A % 2 ^ 64) ||| ((2 ^ k * m) % 2 ^ 64) = (2 ^ k * m + A) % 2 ^ 64 := by
  apply Nat.eq_of_testBit_eq
  intro j
  simp only [Nat.testBit_or, Nat.testBit_mod_two_pow,
    Nat.testBit_mul_pow_two_add _ hA, Nat.testBit_mul_pow_two]
  by_cases h64 : j < 64
  · by_cases hk : k ≤ j
    · have hA2 : A.testBit j = false :=
        Nat.testBit_lt_two_pow
          (lt_of_lt_of_le hA (Nat.pow_le_pow_right (by omega) hk))
      simp [h64, hk, hA2, Nat.not_lt.mpr hk]
    · simp [h64, hk, Nat.lt_of_not_le hk]
  · simp [h64]

/-- A byte scaled by 2 pow i stays below 2 pow (i + 8). -/
theorem byte_mul_lt (v i : Nat) (hv : v < 256) : v * 2 ^ i < 2 ^ (i + 8) := by
  rw [Nat.pow_add, show (2 : Nat) ^ 8 = 256 from by norm_num, Nat.mul_comm]
  exact (Nat.mul_lt_mul_left (Nat.two_pow_pos i)).mpr hv

/-- The accumulation loop applied to bytes smaller than 256, starting
at element index i with the whole range at most 16 bytes, computes the
little-endian integer of the list scaled by 2 pow (8 i), shifted right
by the residual offset and truncated to 64 bits. -/
theorem leFold_eq (s : Nat) (hs : s ≤ 7) :
    ∀ (l : List Nat) (i : Nat), (∀ b ∈ l, b < 256) → i + l.length ≤ 16 →
      leFold s l i = leNat l * 2 ^ (8 * i) / 2 ^ s % 2 ^ 64
  | [], i, _, _ => by simp [leFold, leNat]
  | v :: rest, i, hb, hlen => by
    have hi : 8 * i < 128 := by simp at hlen; omega
    have hv : v < 256 := hb v (by simp)
    have hsmall : v <<< (8 * i) < 2 ^ 128 := by
      rw [Nat.shiftLeft_eq]
      exact lt_of_lt_of_le (byte_mul_lt v (8 * i) hv)
        (Nat.pow_le_pow_right (by omega) (by omega))
    have ih : leFold s rest (i + 1) =
        leNat rest * 2 ^ (8 * (i + 1)) / 2 ^ s % 2 ^ 64 :=
      leFold_eq s hs rest (i + 1) (fun b hbm => hb b (by simp [hbm]))
        (by simp at hlen ⊢; omega)
    rw [leFold, ih, Nat.mod_eq_of_lt hi, Nat.mod_eq_of_lt hsmall,
      Nat.shiftRight_eq_div_pow, Nat.shiftLeft_eq, leNat]
    set m := leNat rest with hm
    have hpow : (2 : Nat) ^ (8 * i + 8 - s) * 2 ^ s = 2 ^ (8 * i) * 256 := by
      rw [← Nat.pow_add, show (256 : Nat) = 2 ^ 8 from by norm_num,
        ← Nat.pow_add]
      congr 1
      omega
    have hsum : (v + 256 * m) * 2 ^ (8 * i) =
        v * 2 ^ (8 * i) + m * 2 ^ (8 * i + 8 - s) * 2 ^ s := by
      calc (v + 256 * m) * 2 ^ (8 * i)
          = v * 2 ^ (8 * i) + m * (2 ^ (8 * i) * 256) := by ring
        _ = v * 2 ^ (8 * i) + m * (2 ^ (8 * i + 8 - s) * 2 ^ s) := by rw [hpow]
        _ = v * 2 ^ (8 * i) + m * 2 ^ (8 * i + 8 - s) * 2 ^ s := by ring
    have hdiv : (v + 256 * m) * 2 ^ (8 * i) / 2 ^ s =
        v * 2 ^ (8 * i) / 2 ^ s + m * 2 ^ (8 * i + 8 - s) := by
      rw [hsum, Nat.add_mul_div_right _ _ (Nat.two_pow_pos s)]
    have hrest : m * 2 ^ (8 * (i + 1)) / 2 ^ s = m * 2 ^ (8 * i + 8 - s) := by
      rw [show 8 * (i + 1) = (8 * i + 8 - s) + s from by omega, Nat.pow_add,
        ← Nat.mul_assoc, Nat.mul_div_cancel _ (Nat.two_pow_pos s)]
    have hA : v * 2 ^ (8 * i) / 2 ^ s < 2 ^ (8 * i + 8 - s) := by
      rw [Nat.div_lt_iff_lt_mul (Nat.two_pow_pos s), ← Nat.pow_add,
        show 8 * i + 8 - s + s = 8 * i + 8 from by omega]
      exact byte_mul_lt v (8 * i) hv
    rw [hdiv, hrest]
    have hor := or_mod_two_pow_add (v * 2 ^ (8 * i) / 2 ^ s) m
      (8 * i + 8 - s) hA
    rw [Nat.mul_comm (2 ^ (8 * i + 8 - s)) m] at hor
    rw [hor, Nat.add_comm]

/-- Claim C4 (amended): whenever the usize sum shift + width + 7 does
not wrap, extract_bits_from_le_bytes returns None exactly when the
width is zero or the buffer is shorter than ceil((shift + width) / 8);
and, provided additionally the covered byte range spans at most 16
bytes (so that the u128 per-byte shift amount stays below 128), the
returned value is extract_bits applied to the little-endian integer of
the covered range at residual bit offset shift mod 8 with the
requested width.  When shift + width + 7 wraps, the range end
collapses and the None condition diverges; beyond 16 covered bytes the
per-byte shift wraps and the value diverges. -/
theorem c4_extract_bits_from_le_bytes_amended :
    (∀ (bytes : List Nat) (shift width : Nat),
        shift + width + 7 < 2 ^ 64 →
        (extract_bits_from_le_bytes bytes shift width = none ↔
          width = 0 ∨ bytes.length < (shift + width + 7) / 8)) ∧
    (∀ (bytes : List Nat) (shift width : Nat),
        shift + width + 7 < 2 ^ 64 →
        (∀ b ∈ bytes, b < 256) →
        (shift + width + 7) / 8 - shift / 8 ≤ 16 →
        extract_bits_from_le_bytes bytes shift width =
          extract_bits_from_le_bytes_claimed bytes shift width) := by
  constructor
  · intro bytes shift width hnw
    unfold extract_bits_from_le_bytes
    rw [Nat.mod_eq_of_lt hnw]
    by_cases hw : width = 0
    · simp [hw]
    · by_cases hlen : (shift + width + 7) / 8 ≤ bytes.length
      · rw [if_neg hw, if_pos ⟨by omega, hlen⟩]
        constructor
        · intro h
          exact absurd h (by simp)
        · intro h
          rcases h with h | h
          · exact absurd h hw
          · omega
      · rw [if_neg hw, if_neg (fun hc => hlen hc.2)]
        constructor
        · intro _
          right
          omega
        · intro _
          rfl
  · intro bytes shift width hnw hb hr
    unfold extract_bits_from_le_bytes extract_bits_from_le_bytes_claimed
    rw [Nat.mod_eq_of_lt hnw]
    by_cases hw : width = 0
    · simp [hw]
    by_cases hlen : (shift + width + 7) / 8 ≤ bytes.length
    · rw [if_neg hw, if_pos ⟨by omega, hlen⟩,
        if_neg (by push_neg; exact ⟨hw, by omega⟩)]
      have hlength : ((bytes.drop (shift / 8)).take
          ((shift + width + 7) / 8 - shift / 8)).length =
          (shift + width + 7) / 8 - shift / 8 := by
        simp only [List.length_take, List.length_drop]
        omega
      have hbl : ∀ b ∈ (bytes.drop (shift / 8)).take
          ((shift + width + 7) / 8 - shift / 8), b < 256 :=
        fun b hbm => hb b (List.drop_subset _ _ (List.take_subset _ _ hbm))
      have hbit : shift - shift / 8 * 8 = shift % 8 := by omega
      rw [hbit, leFold_eq (shift % 8) (by omega) _ 0 hbl (by omega)]
      rw [extract_bits_eq_div_mod, extract_bits_eq_div_mod]
      rw [Nat.mod_eq_of_lt (show shift % 8 < 4294967296 from by omega),
        if_neg (show ¬64 ≤ shift % 8 from by omega)]
      rw [show (0 : Nat) % 4294967296 = 0 from rfl,
        if_neg (show ¬(64 : Nat) ≤ 0 from by omega)]
      rw [show 8 * 0 = 0 from rfl, pow_zero, Nat.mul_one, Nat.div_one]
      exact congrArg some (Nat.mod_mod_of_dvd _
        (pow_dvd_pow 2 (show min 63 width ≤ 64 from
          le_trans (Nat.min_le_left 63 width) (by omega))))
    · rw [if_neg hw, if_neg (fun hc => hlen hc.2), if_pos (by right; omega)]

/-! ## USB descriptor model (src/usb.rs)

The packed records are modelled as structures of Nat fields carrying
the decoded byte (or little-endian u16) values.  The trait method
Sliceable::copy_from_slice lives in crate::slice, which is not under
src/; each copy_from_slice below is modelled from the spec. -/

/-- The error of the modelled copy_from_slice: the only decode failure
the spec describes is a buffer shorter than the fixed record requires. -/
inductive DecodeError
  | tooShort
deriving DecidableEq, Repr

/-- Embedding of ConfigDescriptor (src/usb.rs, lines 65-77): a 9-byte
packed record.  total_length is the little-endian u16 at offset 2. -/
structure ConfigDescriptor where
  desc_length : Nat
  desc_type : Nat
  total_length : Nat
  num_of_interfaces : Nat
  config_value : Nat
  config_string_index : Nat
  -- the source field is named attribute, a reserved word in Lean
  attribute_byte : Nat
  max_power : Nat
deriving DecidableEq, Repr

/-- Modelled from the spec: Sliceable::copy_from_slice for
ConfigDescriptor (crate::slice is not under src/).  It copies the first
9 bytes of the slice into the packed record, field by field in layout
order, and fails when the slice is shorter than the 9-byte record. -/
def ConfigDescriptor.copy_from_slice (buf : List Nat) :
    Except DecodeError ConfigDescriptor :=
  if h : 9 ≤ buf.length then
    .ok {
      desc_length := buf.get ⟨0, by omega⟩
      desc_type := buf.get ⟨1, by omega⟩
      total_length := buf.get ⟨2, by omega⟩ + 256 * buf.get ⟨3, by omega⟩
      num_of_interfaces := buf.get ⟨4, by omega⟩
      config_value := buf.get ⟨5, by omega⟩
      config_string_index := buf.get ⟨6, by omega⟩
      attribute_byte := buf.get ⟨7, by omega⟩
      max_power := buf.get ⟨8, by omega⟩ }
  else .error .tooShort

/-- Embedding of InterfaceDescriptor (src/usb.rs, lines 139-149): a
9-byte packed record of single-byte fields. -/
structure InterfaceDescriptor where
  desc_length : Nat
  desc_type : Nat
  interface_number : Nat
  alt_setting : Nat
  num_of_endpoints : Nat
  interface_class : Nat
  interface_subclass : Nat
  interface_protocol : Nat
  interface_index : Nat
deriving DecidableEq, Repr

/-- Embedding of InterfaceDescriptor::triple (src/usb.rs, lines
152-160). -/
def InterfaceDescriptor.triple (d : InterfaceDescriptor) :
    Nat × Nat × Nat :=
  (d.interface_class, d.interface_subclass, d.interface_protocol)

/-- Modelled from the spec: Sliceable::copy_from_slice for
InterfaceDescriptor; fails when the slice is shorter than 9 bytes. -/
def InterfaceDescriptor.copy_from_slice (buf : List Nat) :
    Except DecodeError InterfaceDescriptor :=
  if h : 9 ≤ buf.length then
    .ok {
      desc_length := buf.get ⟨0, by omega⟩
      desc_type := buf.get ⟨1, by omega⟩
      interface_number := buf.get ⟨2, by omega⟩
      alt_setting := buf.get ⟨3, by omega⟩
      num_of_endpoints := buf.get ⟨4, by omega⟩
      interface_class := buf.get ⟨5, by omega⟩
      interface_subclass := buf.get ⟨6, by omega⟩
      interface_protocol := buf.get ⟨7, by omega⟩
      interface_index := buf.get ⟨8, by omega⟩ }
  else .error .tooShort

/-- Embedding of EndpointDescriptor (src/usb.rs, lines 165-185): a
7-byte packed record; max_packet_size is the little-endian u16 at
offset 4. -/
structure EndpointDescriptor where
  desc_length : Nat
  desc_type : Nat
  endpoint_address : Nat
  attributes : Nat
  max_packet_size : Nat
  interval : Nat
deriving DecidableEq, Repr

/-- Modelled from the spec: Sliceable::copy_from_slice for
EndpointDescriptor; fails when the slice is shorter than 7 bytes. -/
def EndpointDescriptor.copy_from_slice (buf : List Nat) :
    Except DecodeError EndpointDescriptor :=
  if h : 7 ≤ buf.length then
    .ok {
      desc_length := buf.get ⟨0, by omega⟩
      desc_type := buf.get ⟨1, by omega⟩
      endpoint_address := buf.get ⟨2, by omega⟩
      attributes := buf.get ⟨3, by omega⟩
      max_packet_size := buf.get ⟨4, by omega⟩ + 256 * buf.get ⟨5, by omega⟩
      interval := buf.get ⟨6, by omega⟩ }
  else .error .tooShort

/-- Embedding of HidDescriptor (src/usb.rs, lines 359-367): a 9-byte
packed record; hid_release and report_descriptor_length are
little-endian u16 fields. -/
structure HidDescriptor where
  desc_length : Nat
  desc_type : Nat
  hid_release : Nat
  country_code : Nat
  num_descriptors : Nat
  descriptor_type : Nat
  report_descriptor_length : Nat
deriving DecidableEq, Repr

/-- Modelled from the spec: Sliceable::copy_from_slice for
HidDescriptor; fails when the slice is shorter than 9 bytes. -/
def HidDescriptor.copy_from_slice (buf : List Nat) :
    Except DecodeError HidDescriptor :=
  if h : 9 ≤ buf.length then
    .ok {
      desc_length := buf.get ⟨0, by omega⟩
      desc_type := buf.get ⟨1, by omega⟩
      hid_release := buf.get ⟨2, by omega⟩ + 256 * buf.get ⟨3, by omega⟩
      country_code := buf.get ⟨4, by omega⟩
      num_descriptors := buf.get ⟨5, by omega⟩
      descriptor_type := buf.get ⟨6, by omega⟩
      report_descriptor_length :=
        buf.get ⟨7, by omega⟩ + 256 * buf.get ⟨8, by omega⟩ }
  else .error .tooShort

/-- Embedding of the UsbDescriptor enum (src/usb.rs, lines 31-38). -/
inductive UsbDescriptor
  | config (d : ConfigDescriptor)
  | endpoint (d : EndpointDescriptor)
  | interface (d : InterfaceDescriptor)
  | hid (d : HidDescriptor)
  | unknown (desc_len : Nat) (desc_type : Nat)
deriving DecidableEq, Repr

/-- Whether a descriptor is the Config variant. -/
def UsbDescriptor.isConfig : UsbDescriptor → Bool
  | .config _ => true
  | _ => false

/-- Outcome of one DescriptorIterator::next call: ended models the Rust
None (cursor at or past the end, or a decode failure swallowed by the
ok-question-mark conversion), panicked models the out-of-bounds index
that Rust indexing raises, and item carries the yielded descriptor and
the advanced cursor. -/
inductive IterStep
  | panicked
  | ended
  | item (d : UsbDescriptor) (nextIndex : Nat)
deriving DecidableEq, Repr

/-- Witness for claim C4: the hypotheses hold on the two-byte buffer of
the source tests, where both sides compute the documented value 165,
and the None characterization is exercised on the empty buffer. -/
theorem c4_extract_bits_from_le_bytes_amended_witness :
    (4 + 8 + 7 < 2 ^ 64 ∧ (∀ b ∈ ([85, 170] : List Nat), b < 256) ∧
      (4 + 8 + 7) / 8 - 4 / 8 ≤ 16) ∧
    extract_bits_from_le_bytes [85, 170] 4 8 =
      extract_bits_from_le_bytes_claimed [85, 170] 4 8 ∧
    extract_bits_from_le_bytes_claimed [85, 170] 4 8 = some 165 ∧
    0 + 1 + 7 < 2 ^ 64 ∧
    (extract_bits_from_le_bytes ([] : List Nat) 0 1 = none ↔
      (1 = 0 ∨ ([] : List Nat).length < (0 + 1 + 7) / 8)) :=
  ⟨⟨by decide, by decide, by decide⟩,
    c4_extract_bits_from_le_bytes_amended.2 [85, 170] 4 8 (by decide)
      (by decide) (by decide),
    by decide,
    by decide,
    c4_extract_bits_from_le_bytes_amended.1 [] 0 1 (by decide)⟩

/-- Embedding of DescriptorIterator::next (src/usb.rs, lines 97-134).
When the cursor has reached the buffer length the iterator is done
(Rust None, here ended).  Otherwise the code takes the subslice at the
cursor and indexes bytes 0 and 1; byte 1 is indexed unconditionally, so
when fewer than two bytes remain Rust panics, modelled by panicked.
The type byte dispatches to the matching copy_from_slice (Config 2,
Interface 4, Endpoint 5, Hid 0x21); a decode error is converted by
ok-question-mark into Rust None, here ended; any other type byte yields
the Unknown variant.  The cursor advances by the declared length byte,
not by the decoded record size. -/
def DescriptorIterator.next (buf : List Nat) (index : Nat) : IterStep :=
  if buf.length ≤ index then .ended
  else
    let rest := buf.drop index
    let desc_len := rest.headD 0
    if 2 ≤ rest.length then
      -- under the length guard, get? 1 with default 0 is exactly byte 1
      let desc_type := (rest.get? 1).getD 0
      if desc_type = 2 then
        match ConfigDescriptor.copy_from_slice rest with
        | .ok d => .item (.config d) (index + desc_len)
        | .error _ => .ended
      else if desc_type = 4 then
        match InterfaceDescriptor.copy_from_slice rest with
        | .ok d => .item (.interface d) (index + desc_len)
        | .error _ => .ended
      else if desc_type = 5 then
        match EndpointDescriptor.copy_from_slice rest with
        | .ok d => .item (.endpoint d) (index + desc_len)
        | .error _ => .ended
      else if desc_type = 33 then
        match HidDescriptor.copy_from_slice rest with
        | .ok d => .item (.hid d) (index + desc_len)
        | .error _ => .ended
      else .item (.unknown desc_len desc_type) (index + desc_len)
    else .panicked

/-- Outcome of draining the iterator: the collected list, a panic, or
fuel exhaustion (which models the infinite loop a zero declared length
causes in the Rust code). -/
inductive ChainResult
  | ok (l : List UsbDescriptor)
  | panicked
  | outOfFuel
deriving DecidableEq, Repr

/-- Fueled drain of the iterator from a given cursor. -/
def collectFrom (buf : List Nat) : Nat → Nat → ChainResult
  | 0, _ => .outOfFuel
  | fuel + 1, index =>
    match DescriptorIterator.next buf index with
    | .ended => .ok []
    | .panicked => .panicked
    | .item d next =>
      match collectFrom buf fuel next with
      | .ok l => .ok (d :: l)
      | r => r

/-- Embedding of iterating a DescriptorIterator to completion and
collecting the yields (iter.collect() in
request_config_descriptor_and_rest, src/usb.rs, lines 285-286).  A
fuel of one more than the buffer length suffices whenever every
yielded record declares a positive length, because each yield then
advances the cursor by at least one. -/
def collectDescriptors (buf : List Nat) : ChainResult :=
  collectFrom buf (buf.length + 1) 0

/-- The loop state and body of pick_interface_with_triple (src/usb.rs,
lines 301-328): state (config, interface, desc_list); a Config record
breaks out of the loop when an interface has already matched, and
otherwise becomes the current config and clears desc_list; an
Interface record whose triple equals the query becomes the current
interface; any other record is appended to desc_list once an interface
has matched. -/
def pickLoop (triple : Nat × Nat × Nat) :
    List UsbDescriptor → Option ConfigDescriptor →
    Option InterfaceDescriptor → List UsbDescriptor →
    Option ConfigDescriptor × Option InterfaceDescriptor × List UsbDescriptor
  | [], config, interface, desc_list => (config, interface, desc_list)
  | d :: rest, config, interface, desc_list =>
    match d with
    | .config e =>
      if interface.isSome then (config, interface, desc_list)
      else pickLoop triple rest (some e) interface []
    | .interface e =>
      pickLoop triple rest config
        (if triple = e.triple then some e else interface) desc_list
    | e =>
      pickLoop triple rest config interface
        (if interface.isSome then desc_list ++ [e] else desc_list)

/-- Embedding of pick_interface_with_triple (src/usb.rs, lines
301-334): run the loop from the empty state and return the pair only
when both a config and an interface were recorded. -/
def pick_interface_with_triple (descriptors : List UsbDescriptor)
    (triple : Nat × Nat × Nat) :
    Option (ConfigDescriptor × InterfaceDescriptor × List UsbDescriptor) :=
  match pickLoop triple descriptors none none [] with
  | (some config, some interface, desc_list) =>
    some (config, interface, desc_list)
  | _ => none

/-- Concrete descriptors used by the concrete-input theorems below. -/
def configA : ConfigDescriptor := ⟨9, 2, 25, 1, 1, 0, 0, 50⟩

def configB : ConfigDescriptor := ⟨9, 2, 18, 1, 2, 0, 0, 50⟩

def interface111 : InterfaceDescriptor := ⟨9, 4, 0, 0, 1, 1, 1, 1, 0⟩

def interface111b : InterfaceDescriptor := ⟨9, 4, 1, 0, 1, 1, 1, 1, 0⟩

def interface222 : InterfaceDescriptor := ⟨9, 4, 1, 0, 1, 2, 2, 2, 0⟩

def endpointX : EndpointDescriptor := ⟨7, 5, 129, 3, 8, 10⟩

/-- Claim C1 (the code evaluated at the failing input): a buffer
holding the single byte 0 starts the call with the cursor 0 strictly
below the buffer length 1, yet next indexes byte 1 of a one-byte
subslice and panics; likewise after a record whose declared length 1
leaves exactly one byte, the following call panics.  The claim, and
the spec requirement that a malformed length never crash or read out
of bounds, are violated by the code here. -/
theorem c1_next_panics_on_one_byte_remainder :
    DescriptorIterator.next [0] 0 = .panicked ∧
    DescriptorIterator.next [1, 0] 0 = .item (.unknown 1 0) 1 ∧
    DescriptorIterator.next [1, 0] 1 = .panicked := by
  refine ⟨by decide, by decide, by decide⟩

/-- Claim C8: on the descriptor list Config A, Interface(1,1,1),
Endpoint, Config B, Interface(2,2,2), the query (2,2,2) returns
Config B with Interface(2,2,2) and an empty trailing list, and the
query (9,9,9) returns None. -/
theorem c8_pick_interface_examples :
    pick_interface_with_triple
      [.config configA, .interface interface111, .endpoint endpointX,
        .config configB, .interface interface222] (2, 2, 2) =
      some (configB, interface222, []) ∧
    pick_interface_with_triple
      [.config configA, .interface interface111, .endpoint endpointX,
        .config configB, .interface interface222] (9, 9, 9) = none := by
  refine ⟨by decide, by decide⟩

/-- Claim C9 (counterexample): a buffer holding a complete Endpoint
record followed by a truncated Config record (declared length 9, only
2 bytes present) decodes to the ok outcome carrying the one complete
descriptor: the decode failure of the recognized Config type does not
propagate as an error, it silently ends the iteration and the partial
list is returned to the caller. -/
theorem c9_counterexample :
    collectDescriptors [7, 5, 0, 0, 0, 0, 0, 9, 2] =
      .ok [.endpoint ⟨7, 5, 0, 0, 0, 0⟩] ∧
    DescriptorIterator.next [7, 5, 0, 0, 0, 0, 0, 9, 2] 7 = .ended := by
  refine ⟨by decide, by decide⟩

/-- Claim C3 (counterexample): with two interfaces of the same
matching triple (1,1,1) inside one config, the returned interface is
the second one (interface_number 1), not the first (interface_number
0): a later matching interface replaces the earlier match. -/
theorem c3_counterexample :
    pick_interface_with_triple
      [.config configA, .interface interface111, .interface interface111b]
      (1, 1, 1) =
      some (configA, interface111b, []) ∧
    interface111b ≠ interface111 := by
  refine ⟨by decide, by decide⟩

/-- If the loop ends with a recorded interface, either that interface
has the query triple or it was already recorded on entry. -/
theorem pickLoop_interface_of_some (q : Nat × Nat × Nat)
    (ds : List UsbDescriptor) :
    ∀ (c : Option ConfigDescriptor) (i : Option InterfaceDescriptor)
      (l : List UsbDescriptor) (e : InterfaceDescriptor),
      (pickLoop q ds c i l).2.1 = some e → e.triple = q ∨ i = some e := by
  induction ds with
  | nil =>
    intro c i l e h
    simp only [pickLoop] at h
    exact Or.inr h
  | cons d rest ih =>
    intro c i l e h
    cases d with
    | config e0 =>
      cases i with
      | none =>
        simp only [pickLoop, Option.isSome_none, Bool.false_eq_true,
          if_false] at h
        exact ih (some e0) none [] e h
      | some iv =>
        simp only [pickLoop, Option.isSome_some, if_true] at h
        exact Or.inr h
    | interface e0 =>
      simp only [pickLoop] at h
      rcases ih c _ l e h with h1 | h1
      · exact Or.inl h1
      · by_cases ht : q = e0.triple
        · rw [if_pos ht] at h1
          injection h1 with h2
          exact Or.inl (h2 ▸ ht.symm)
        · rw [if_neg ht] at h1
          exact Or.inr h1
    | endpoint e0 =>
      simp only [pickLoop] at h
      exact ih c i _ e h
    | hid e0 =>
      simp only [pickLoop] at h
      exact ih c i _ e h
    | unknown a b =>
      simp only [pickLoop] at h
      exact ih c i _ e h

/-- Within a run of the list that holds no Config record, a matching
interface at the end always ends up recorded, whatever was recorded
before: the last matching interface wins. -/
theorem pickLoop_last_match (q : Nat × Nat × Nat) (ds : List UsbDescriptor) :
    ∀ (c : Option ConfigDescriptor) (i : Option InterfaceDescriptor)
      (l : List UsbDescriptor) (e : InterfaceDescriptor),
      (∀ d ∈ ds, d.isConfig = false) → q = e.triple →
      (pickLoop q (ds ++ [.interface e]) c i l).2.1 = some e := by
  induction ds with
  | nil =>
    intro c i l e _ hq
    simp [pickLoop, hq]
  | cons d rest ih =>
    intro c i l e hconf hq
    cases d with
    | config e0 =>
      exact absurd (hconf (UsbDescriptor.config e0) (List.mem_cons_self _ _))
        (by simp [UsbDescriptor.isConfig])
    | interface e0 =>
      simp only [List.cons_append, pickLoop]
      exact ih c _ l e (fun d hd => hconf d (by simp [hd])) hq
    | endpoint e0 =>
      simp only [List.cons_append, pickLoop]
      exact ih c i _ e (fun d hd => hconf d (by simp [hd])) hq
    | hid e0 =>
      simp only [List.cons_append, pickLoop]
      exact ih c i _ e (fun d hd => hconf d (by simp [hd])) hq
    | unknown a b =>
      simp only [List.cons_append, pickLoop]
      exact ih c i _ e (fun d hd => hconf d (by simp [hd])) hq

/-- Once an interface is recorded (or the prefix ahead of a Config
record contains a matching interface), the loop breaks at that Config
record, so everything after it is irrelevant to the outcome. -/
theorem pickLoop_break_suffix (q : Nat × Nat × Nat) (e : ConfigDescriptor)
    (ds2 ds2' : List UsbDescriptor) :
    ∀ (ds1 : List UsbDescriptor) (c : Option ConfigDescriptor)
      (i : Option InterfaceDescriptor) (l : List UsbDescriptor),
      (i.isSome = true ∨ ∃ i0 : InterfaceDescriptor,
        UsbDescriptor.interface i0 ∈ ds1 ∧ i0.triple = q) →
      pickLoop q (ds1 ++ UsbDescriptor.config e :: ds2) c i l =
        pickLoop q (ds1 ++ UsbDescriptor.config e :: ds2') c i l := by
  intro ds1
  induction ds1 with
  | nil =>
    intro c i l hyp
    rcases hyp with hi | ⟨i0, hm, _⟩
    · simp [pickLoop, hi]
    · exact absurd hm (List.not_mem_nil _)
  | cons d rest ih =>
    intro c i l hyp
    cases d with
    | config e0 =>
      cases i with
      | some iv => simp [pickLoop]
      | none =>
        rcases hyp with hi | ⟨i0, hm, htr⟩
        · exact absurd hi (by simp)
        · have hm2 : UsbDescriptor.interface i0 ∈ rest := by
            rcases List.mem_cons.mp hm with h0 | h0
            · exact absurd h0 (by simp)
            · exact h0
          simp only [List.cons_append, pickLoop, Option.isSome_none,
            Bool.false_eq_true, if_false]
          exact ih (some e0) none [] (Or.inr ⟨i0, hm2, htr⟩)
    | interface e0 =>
      simp only [List.cons_append, pickLoop]
      by_cases ht : q = e0.triple
      · rw [if_pos ht]
        exact ih c (some e0) l (Or.inl rfl)
      · rw [if_neg ht]
        apply ih c i l
        rcases hyp with hi | ⟨i0, hm, htr⟩
        · exact Or.inl hi
        · rcases List.mem_cons.mp hm with h0 | h0
          · injection h0 with h1
            exact absurd (h1 ▸ htr).symm ht
          · exact Or.inr ⟨i0, h0, htr⟩
    | endpoint e0 =>
      simp only [List.cons_append, pickLoop]
      apply ih c i _
      rcases hyp with hi | ⟨i0, hm, htr⟩
      · exact Or.inl hi
      · rcases List.mem_cons.mp hm with h0 | h0
        · exact absurd h0 (by simp)
        · exact Or.inr ⟨i0, h0, htr⟩
    | hid e0 =>
      simp only [List.cons_append, pickLoop]
      apply ih c i _
      rcases hyp with hi | ⟨i0, hm, htr⟩
      · exact Or.inl hi
      · rcases List.mem_cons.mp hm with h0 | h0
        · exact absurd h0 (by simp)
        · exact Or.inr ⟨i0, h0, htr⟩
    | unknown a b =>
      simp only [List.cons_append, pickLoop]
      apply ih c i _
      rcases hyp with hi | ⟨i0, hm, htr⟩
      · exact Or.inl hi
      · rcases List.mem_cons.mp hm with h0 | h0
        · exact absurd h0 (by simp)
        · exact Or.inr ⟨i0, h0, htr⟩

/-- Claim C3 (amended): an Interface record is adopted as the result
interface only if its triple equals the query, but it is adopted even
when an interface has already matched, replacing it: within the
records scanned, the last matching interface wins; scanning still
stops at the first Config record encountered after a match has been
recorded, so records after that Config cannot affect the result. -/
theorem c3_pick_interface_amended :
    (∀ (ds : List UsbDescriptor) (q : Nat × Nat × Nat)
        (c : ConfigDescriptor) (i : InterfaceDescriptor)
        (l : List UsbDescriptor),
        pick_interface_with_triple ds q = some (c, i, l) → i.triple = q) ∧
    (∀ (q : Nat × Nat × Nat) (ds : List UsbDescriptor)
        (c : Option ConfigDescriptor) (i : Option InterfaceDescriptor)
        (l : List UsbDescriptor) (e : InterfaceDescriptor),
        (∀ d ∈ ds, d.isConfig = false) → q = e.triple →
        (pickLoop q (ds ++ [.interface e]) c i l).2.1 = some e) ∧
    (∀ (q : Nat × Nat × Nat) (ds1 : List UsbDescriptor)
        (e : ConfigDescriptor) (ds2 ds2' : List UsbDescriptor),
        (∃ i0 : InterfaceDescriptor,
          UsbDescriptor.interface i0 ∈ ds1 ∧ i0.triple = q) →
        pick_interface_with_triple (ds1 ++ UsbDescriptor.config e :: ds2) q =
          pick_interface_with_triple
            (ds1 ++ UsbDescriptor.config e :: ds2') q) := by
  refine ⟨?_, ?_, ?_⟩
  · intro ds q c i l h
    unfold pick_interface_with_triple at h
    rcases hp : pickLoop q ds none none [] with ⟨oc, rest⟩
    rcases rest with ⟨oi, ol⟩
    rw [hp] at h
    cases oc with
    | none => simp at h
    | some c0 =>
      cases oi with
      | none => simp at h
      | some i0 =>
        simp only [Option.some.injEq, Prod.mk.injEq] at h
        obtain ⟨hc, hi, hl⟩ := h
        have h21 : (pickLoop q ds none none []).2.1 = some i0 := by
          rw [hp]
        rcases pickLoop_interface_of_some q ds none none [] i0 h21 with
          h1 | h1
        · rw [← hi]
          exact h1
        · exact absurd h1 (by simp)
  · intro q ds c i l e hconf hq
    exact pickLoop_last_match q ds c i l e hconf hq
  · intro q ds1 e ds2 ds2' hex
    unfold pick_interface_with_triple
    rw [pickLoop_break_suffix q e ds2 ds2' ds1 none none []
      (Or.inr hex)]

/-- Witness for claim C3: applied to the concrete list with two
matching interfaces, the amended theorem confirms the returned
interface carries the query triple, the last-match lemma singles out
the second interface, and the break lemma makes a suffix after a
Config boundary irrelevant. -/
theorem c3_pick_interface_amended_witness :
    (1, 1, 1) = interface111b.triple ∧
    interface111b.triple = (1, 1, 1) ∧
    (pickLoop (1, 1, 1)
      ([.interface interface111] ++ [.interface interface111b])
      (some configA) none []).2.1 = some interface111b ∧
    pick_interface_with_triple
      ([.interface interface111] ++
        UsbDescriptor.config configB :: [.interface interface222])
      (1, 1, 1) =
      pick_interface_with_triple
        ([.interface interface111] ++ UsbDescriptor.config configB :: [])
        (1, 1, 1) := by
  refine ⟨by decide, ?_, ?_, ?_⟩
  · exact c3_pick_interface_amended.1
      [.config configA, .interface interface111b] (1, 1, 1)
      configA interface111b [] (by decide)
  · exact c3_pick_interface_amended.2.1 (1, 1, 1) [.interface interface111]
      (some configA) none [] interface111b (by decide) (by decide)
  · exact c3_pick_interface_amended.2.2 (1, 1, 1) [.interface interface111]
      configB [.interface interface222] [] ⟨interface111, by decide, by decide⟩

/-- With no Config record in the list, the config component of the
loop state stays empty. -/
theorem pickLoop_config_none (q : Nat × Nat × Nat)
    (ds : List UsbDescriptor) :
    ∀ (i : Option InterfaceDescriptor) (l : List UsbDescriptor),
      (∀ d ∈ ds, d.isConfig = false) →
      (pickLoop q ds none i l).1 = none := by
  induction ds with
  | nil =>
    intro i l _
    simp [pickLoop]
  | cons d rest ih =>
    intro i l hconf
    cases d with
    | config e0 =>
      exact absurd (hconf (UsbDescriptor.config e0) (List.mem_cons_self _ _))
        (by simp [UsbDescriptor.isConfig])
    | interface e0 =>
      simp only [pickLoop]
      exact ih _ l (fun d hd => hconf d (by simp [hd]))
    | endpoint e0 =>
      simp only [pickLoop]
      exact ih i _ (fun d hd => hconf d (by simp [hd]))
    | hid e0 =>
      simp only [pickLoop]
      exact ih i _ (fun d hd => hconf d (by simp [hd]))
    | unknown a b =>
      simp only [pickLoop]
      exact ih i _ (fun d hd => hconf d (by simp [hd]))

/-- Claim C10: when the descriptor list holds no Config record at all,
pick_interface_with_triple returns None, even when an Interface record
matches the query triple: a matched interface alone never produces a
result. -/
theorem c10_no_config_yields_none (ds : List UsbDescriptor)
    (q : Nat × Nat × Nat) (h : ∀ d ∈ ds, d.isConfig = false) :
    pick_interface_with_triple ds q = none := by
  unfold pick_interface_with_triple
  have hc := pickLoop_config_none q ds none [] h
  rcases hp : pickLoop q ds none none [] with ⟨oc, rest⟩
  rw [hp] at hc
  simp only at hc
  subst hc
  rcases rest with ⟨oi, ol⟩
  rfl

/-- Witness for claim C10: a list holding only an interface whose
triple equals the query still yields None. -/
theorem c10_no_config_yields_none_witness :
    (∀ d ∈ [UsbDescriptor.interface interface111],
      d.isConfig = false) ∧
    pick_interface_with_triple [.interface interface111] (1, 1, 1) = none :=
  ⟨by decide,
    c10_no_config_yields_none [.interface interface111] (1, 1, 1) (by decide)⟩

/-- The fixed record size each recognized type tag requires: Config 2,
Interface 4 and Hid 0x21 decode 9-byte records; Endpoint 5 decodes a
7-byte record. -/
def recognizedSize (t : Nat) : Option Nat :=
  if t = 2 then some 9
  else if t = 4 then some 9
  else if t = 5 then some 7
  else if t = 33 then some 9
  else none

/-- Claim C9 (amended): when next encounters a record whose type tag is
a recognized variant but the remaining buffer is shorter than that
variant's fixed record size, the decode failure silently terminates
the iteration: next returns the Rust None (ended, not an error), and
draining the iterator from that point contributes the empty list, so
the caller of the chain decode receives the descriptors decoded before
the failure point as a partially-salvaged list with no error
signalled. -/
theorem c9_truncated_decode_amended (buf : List Nat) (index t sz : Nat)
    (hlt : index < buf.length)
    (ht : (buf.drop index).get? 1 = some t)
    (hsz : recognizedSize t = some sz)
    (hshort : (buf.drop index).length < sz) :
    DescriptorIterator.next buf index = .ended ∧
    ∀ fuel, collectFrom buf (fuel + 1) index = .ok [] := by
  have h2 : 2 ≤ (buf.drop index).length := by
    rcases List.get?_eq_some.mp ht with ⟨hb, _⟩
    omega
  have hnext : DescriptorIterator.next buf index = .ended := by
    unfold DescriptorIterator.next
    rw [if_neg (Nat.not_le.mpr hlt)]
    simp only [ht, Option.getD_some, if_pos h2]
    unfold recognizedSize at hsz
    by_cases ht2 : t = 2
    · subst ht2
      norm_num at hsz
      unfold ConfigDescriptor.copy_from_slice
      rw [dif_neg (by omega)]
      norm_num
    · by_cases ht4 : t = 4
      · subst ht4
        norm_num at hsz
        unfold InterfaceDescriptor.copy_from_slice
        rw [dif_neg (by omega)]
        norm_num
      · by_cases ht5 : t = 5
        · subst ht5
          norm_num at hsz
          unfold EndpointDescriptor.copy_from_slice
          rw [dif_neg (by omega)]
          norm_num
        · by_cases ht33 : t = 33
          · subst ht33
            norm_num at hsz
            unfold HidDescriptor.copy_from_slice
            rw [dif_neg (by omega)]
            norm_num
          · simp only [ht2, ht4, ht5, ht33, if_false] at hsz
            exact absurd hsz (by simp)
  refine ⟨hnext, fun fuel => ?_⟩
  unfold collectFrom
  rw [hnext]

/-- Witness for claim C9: a buffer holding just the two prefix bytes of
a Config record (declared length 9, type 2) satisfies the hypotheses;
next ends the iteration and the drain from there yields the empty
list, with no error outcome. -/
theorem c9_truncated_decode_amended_witness :
    (0 < ([9, 2] : List Nat).length ∧
      (([9, 2] : List Nat).drop 0).get? 1 = some 2 ∧
      recognizedSize 2 = some 9 ∧
      (([9, 2] : List Nat).drop 0).length < 9) ∧
    DescriptorIterator.next [9, 2] 0 = .ended ∧
    collectFrom [9, 2] 1 0 = .ok [] := by
  have h := c9_truncated_decode_amended [9, 2] 0 2 9 (by decide) (by decide)
    (by decide) (by decide)
  exact ⟨⟨by decide, by decide, by decide, by decide⟩, h.1, h.2 0⟩

/-! ## ACPI root table walker and typed views (src/acpi.rs) -/

/-- Embedding of SystemDescriptionTableHeader (src/acpi.rs, lines
6-24): the fixed 36-byte header.  Only the 4-byte signature and the
declared u32 length take part in the claims; the other 28 bytes are
opaque. -/
structure SystemDescriptionTableHeader where
  signature : List Nat
  length : Nat
deriving DecidableEq, Repr

/-- Embedding of Xsdt (src/acpi.rs, lines 54-83) together with the
memory after its header: slots models the pointer array, slot i
holding the header the i-th 64-bit pointer dereferences to.  The Rust
iterator dereferences slot i for every i below num_of_entries,
whatever memory lies there, so slots is a total function. -/
structure Xsdt where
  header : SystemDescriptionTableHeader
  slots : Nat → SystemDescriptionTableHeader

/-- Embedding of Xsdt::num_of_entries (src/acpi.rs, lines 70-73):
(declared length - header size 36) / pointer width 8.  Rust subtracts
on usize, which panics below 36 in a debug build and wraps in release;
the truncated Nat subtraction is faithful only for lengths of at least
36, the invariant the data model declares, and the theorems below
carry that bound as a hypothesis. -/
def Xsdt.num_of_entries (x : Xsdt) : Nat :=
  (x.header.length - 36) / 8

/-- Embedding of XsdtIterator::next (src/acpi.rs, lines 41-52): done
once the index reaches num_of_entries, else yield entry(index) and
advance the index by one. -/
def XsdtIterator.next (x : Xsdt) (index : Nat) :
    Option (SystemDescriptionTableHeader × Nat) :=
  if x.num_of_entries ≤ index then none
  else some (x.slots index, index + 1)

/-- Fueled drain of the XSDT iterator from a given index. -/
def Xsdt.itemsFrom (x : Xsdt) : Nat → Nat → List SystemDescriptionTableHeader
  | 0, _ => []
  | fuel + 1, index =>
    match XsdtIterator.next x index with
    | none => []
    | some (h, next) => h :: Xsdt.itemsFrom x fuel next

/-- Embedding of draining Xsdt::iter() from the start: fuel
num_of_entries suffices because every step advances the index by
exactly one. -/
def Xsdt.iterate (x : Xsdt) : List SystemDescriptionTableHeader :=
  x.itemsFrom x.num_of_entries 0

/-- Embedding of Xsdt::find_table (src/acpi.rs, lines 61-66): the
first header in iteration order whose signature equals the query. -/
def Xsdt.find_table (x : Xsdt) (sig : List Nat) :
    Option SystemDescriptionTableHeader :=
  x.iterate.find? (fun e => e.signature == sig)

/-- Draining the iterator from index yields one header per remaining
slot. -/
theorem Xsdt.itemsFrom_length (x : Xsdt) :
    ∀ (fuel index : Nat), x.num_of_entries - index ≤ fuel →
      (x.itemsFrom fuel index).length = x.num_of_entries - index
  | 0, index, h => by simp [Xsdt.itemsFrom]; omega
  | fuel + 1, index, h => by
    unfold Xsdt.itemsFrom XsdtIterator.next
    by_cases hi : x.num_of_entries ≤ index
    · simp [hi]
    · simp only [hi, if_false, List.length_cons]
      rw [Xsdt.itemsFrom_length x fuel (index + 1) (by omega)]
      omega

/-- Draining the iterator from index yields the slots in pointer-array
order. -/
theorem Xsdt.itemsFrom_get? (x : Xsdt) :
    ∀ (fuel index k : Nat), x.num_of_entries - index ≤ fuel →
      (x.itemsFrom fuel index).get? k =
        if index + k < x.num_of_entries then some (x.slots (index + k))
        else none
  | 0, index, k, h => by
    simp only [Xsdt.itemsFrom, List.get?_nil]
    rw [if_neg (by omega)]
  | fuel + 1, index, k, h => by
    unfold Xsdt.itemsFrom XsdtIterator.next
    by_cases hi : x.num_of_entries ≤ index
    · simp only [hi, if_true, List.get?_nil]
      rw [if_neg (by omega)]
    · simp only [hi, if_false]
      cases k with
      | zero =>
        simp only [List.get?_cons_zero]
        rw [if_pos (by omega), Nat.add_zero]
      | succ k0 =>
        simp only [List.get?_cons_succ]
        rw [Xsdt.itemsFrom_get? x fuel (index + 1) k0 (by omega)]
        by_cases hk : index + 1 + k0 < x.num_of_entries
        · rw [if_pos hk, if_pos (by omega),
            show index + 1 + k0 = index + (k0 + 1) from by omega]
        · rw [if_neg hk, if_neg (by omega)]

/-- The first match of find?, by position: the found element sits at
an index before which no element satisfies the predicate. -/
theorem find?_first_position {α : Type} (p : α → Bool) :
    ∀ (l : List α) (a : α), l.find? p = some a →
      p a = true ∧ ∃ k, l.get? k = some a ∧
        ∀ j < k, ∀ b, l.get? j = some b → p b = false := by
  intro l
  induction l with
  | nil => intro a h; exact absurd h (by simp)
  | cons x rest ih =>
    intro a h
    rw [List.find?_cons] at h
    cases hp : p x with
    | true =>
      rw [hp] at h
      injection h with h1
      subst h1
      exact ⟨hp, 0, rfl, fun j hj => absurd hj (by omega)⟩
    | false =>
      rw [hp] at h
      rcases ih a h with ⟨hpa, k, hk, hfirst⟩
      refine ⟨hpa, k + 1, by simpa using hk, ?_⟩
      intro j hj b hb
      cases j with
      | zero =>
        simp only [List.get?_cons_zero] at hb
        injection hb with hb1
        subst hb1
        exact hp
      | succ j0 =>
        simp only [List.get?_cons_succ] at hb
        exact hfirst j0 (by omega) b hb

/-- Claim C5: for a root table whose header declares a length of at
least the 36-byte header size, iteration yields exactly
(length - 36) / 8 header references, in pointer-array order, and
find_table returns the first yielded header whose signature equals the
query, or None when no yielded header matches. -/
theorem c5_xsdt_iteration_and_find_table (x : Xsdt)
    (hL : 36 ≤ x.header.length) :
    (x.iterate.length = (x.header.length - 36) / 8 ∧
      ∀ k, x.iterate.get? k =
        if k < (x.header.length - 36) / 8 then some (x.slots k) else none) ∧
    ∀ sig : List Nat,
      (x.find_table sig = none ↔ ∀ e ∈ x.iterate, e.signature ≠ sig) ∧
      ∀ e, x.find_table sig = some e →
        e.signature = sig ∧ ∃ k, x.iterate.get? k = some e ∧
          ∀ j < k, ∀ e2, x.iterate.get? j = some e2 → e2.signature ≠ sig := by
  refine ⟨⟨?_, ?_⟩, ?_⟩
  · rw [Xsdt.iterate, Xsdt.itemsFrom_length x x.num_of_entries 0 (by omega)]
    rfl
  · intro k
    rw [Xsdt.iterate, Xsdt.itemsFrom_get? x x.num_of_entries 0 k (by omega),
      Nat.zero_add]
    rfl
  · intro sig
    constructor
    · rw [Xsdt.find_table, List.find?_eq_none]
      constructor
      · intro h e he
        have := h e he
        simpa using this
      · intro h e he
        simpa using h e he
    · intro e he
      rcases find?_first_position _ x.iterate e he with ⟨hpe, k, hk, hfirst⟩
      refine ⟨by simpa using hpe, k, hk, ?_⟩
      intro j hj e2 he2
      have := hfirst j hj e2 he2
      simpa using this

/-- A concrete root table for the C5 witness: length 52 declares two
pointer slots; the first slot holds an HPET header, the second an MCFG
header. -/
def demoXsdt : Xsdt :=
  ⟨⟨[88, 83, 68, 84], 52⟩,
    fun i => if i = 0 then ⟨[72, 80, 69, 84], 56⟩ else ⟨[77, 67, 70, 71], 60⟩⟩

/-- Witness for claim C5: on the concrete two-entry root table the
iteration yields exactly (52 - 36) / 8 = 2 headers, find_table locates
the HPET header, and an absent signature yields None. -/
theorem c5_xsdt_iteration_and_find_table_witness :
    36 ≤ demoXsdt.header.length ∧
    demoXsdt.iterate.length = (demoXsdt.header.length - 36) / 8 ∧
    demoXsdt.iterate.length = 2 ∧
    demoXsdt.find_table [72, 80, 69, 84] = some ⟨[72, 80, 69, 84], 56⟩ ∧
    (demoXsdt.find_table [0, 0, 0, 0] = none ↔
      ∀ e ∈ demoXsdt.iterate, e.signature ≠ [0, 0, 0, 0]) := by
  have h := c5_xsdt_iteration_and_find_table demoXsdt (by decide)
  exact ⟨by decide, h.1.1, by decide, by decide, (h.2 [0, 0, 0, 0]).1⟩

/-- Embedding of EcamEntry (src/acpi.rs, lines 200-212): 8-byte base
address, 2-byte segment group, start and end bus numbers; the 4
reserved bytes are opaque. -/
structure EcamEntry where
  ecm_base_addr : Nat
  pci_segment_group : Nat
  start_pci_bus : Nat
  end_pci_bus : Nat
deriving DecidableEq, Repr

/-- Embedding of AcpiMcfgDescriptor (src/acpi.rs, lines 164-198)
together with the memory after its 44-byte header: entries models the
trailing ECAM entry array, total for the same reason as Xsdt.slots. -/
structure AcpiMcfgDescriptor where
  header : SystemDescriptionTableHeader
  entries : Nat → EcamEntry

/-- Embedding of AcpiMcfgDescriptor::num_of_entries (src/acpi.rs,
lines 183-186): (declared length - header size 44) / entry size 16,
with the same usize-subtraction caveat as Xsdt.num_of_entries. -/
def AcpiMcfgDescriptor.num_of_entries (m : AcpiMcfgDescriptor) : Nat :=
  (m.header.length - 44) / 16

/-- Embedding of AcpiMcfgDescriptor::entry (src/acpi.rs, lines
187-197): None for an index at or past num_of_entries, else the entry
at that index. -/
def AcpiMcfgDescriptor.entry (m : AcpiMcfgDescriptor) (index : Nat) :
    Option EcamEntry :=
  if m.num_of_entries ≤ index then none
  else some (m.entries index)

/-- Claim C6: for an MCFG table whose header declares a length of at
least the 44-byte header size, the entry count equals
(length - 44) / 16, and entry(i) is Some exactly for i below that
count. -/
theorem c6_mcfg_entry (m : AcpiMcfgDescriptor) (i : Nat)
    (hL : 44 ≤ m.header.length) :
    ((m.entry i).isSome ↔ i < (m.header.length - 44) / 16) ∧
    m.num_of_entries = (m.header.length - 44) / 16 := by
  refine ⟨?_, rfl⟩
  unfold AcpiMcfgDescriptor.entry
  by_cases h : m.num_of_entries ≤ i
  · rw [if_pos h]
    simp only [Option.isSome_none, Bool.false_eq_true, false_iff]
    unfold AcpiMcfgDescriptor.num_of_entries at h
    omega
  · rw [if_neg h]
    simp only [Option.isSome_some, true_iff]
    unfold AcpiMcfgDescriptor.num_of_entries at h
    omega

/-- A concrete MCFG table for the C6 witness: length 76 declares
(76 - 44) / 16 = 2 entries. -/
def demoMcfg : AcpiMcfgDescriptor :=
  ⟨⟨[77, 67, 70, 71], 76⟩, fun i => ⟨3221225472 + 268435456 * i, 0, 0, 255⟩⟩

/-- Witness for claim C6: on the concrete table, entries 0 and 1 are
Some and entry 2 is None, matching the count 2. -/
theorem c6_mcfg_entry_witness :
    44 ≤ demoMcfg.header.length ∧
    ((demoMcfg.entry 0).isSome ↔ 0 < (demoMcfg.header.length - 44) / 16) ∧
    ((demoMcfg.entry 2).isSome ↔ 2 < (demoMcfg.header.length - 44) / 16) ∧
    demoMcfg.entry 2 = none ∧
    demoMcfg.num_of_entries = 2 := by
  have h0 := c6_mcfg_entry demoMcfg 0 (by decide)
  have h2 := c6_mcfg_entry demoMcfg 2 (by decide)
  exact ⟨by decide, h0.1, h2.1, by decide, by decide⟩

/-! ## Descriptor enumeration protocol (src/usb.rs) -/

/-- One request made against the abstract controller capability
request_descriptor (the external collaborator surface): the descriptor
type tag, the descriptor index, the language id, and the length of the
destination buffer handed over. -/
structure DescRequest where
  desc_type : Nat
  index : Nat
  lang_id : Nat
  buf_len : Nat
deriving DecidableEq, Repr

/-- The destination buffer after a completed transfer: the kernel
allocates the buffer zero-filled, and the controller writes the
response into it, so the buffer holds the response truncated to the
buffer length, padded with the remaining zeros. -/
def fillBuf (resp : List Nat) (n : Nat) : List Nat :=
  resp.take n ++ List.replicate (n - resp.length) 0

/-- Outcome of request_config_descriptor_and_rest: a failed transfer
or failed header decode propagates as an error; otherwise the chain
decode outcome of the second buffer. -/
inductive FetchOutcome
  | transferFailed
  | headerDecodeFailed
  | chain (r : ChainResult)
deriving DecidableEq, Repr

/-- Embedding of request_config_descriptor_and_rest (src/usb.rs, lines
256-288), with the abstract controller as a function from a request to
a transfer result.  Phase one allocates a buffer of the 9-byte
ConfigDescriptor size and requests descriptor type Config (2), index
0, language 0; the response buffer is decoded as a ConfigDescriptor.
Phase two allocates a buffer of exactly the decoded total_length and
repeats the request; the full second buffer is decoded by draining a
DescriptorIterator.  The function also returns the trace of requests
made, so the buffer length of each phase is observable.  A transfer
error at either phase propagates immediately. -/
def request_config_descriptor_and_rest
    (ctrl : DescRequest → Except Unit (List Nat)) :
    FetchOutcome × List DescRequest :=
  match ctrl ⟨2, 0, 0, 9⟩ with
  | .error _ => (.transferFailed, [⟨2, 0, 0, 9⟩])
  | .ok r1 =>
    match ConfigDescriptor.copy_from_slice (fillBuf r1 9) with
    | .error _ => (.headerDecodeFailed, [⟨2, 0, 0, 9⟩])
    | .ok config_descriptor =>
      match ctrl ⟨2, 0, 0, config_descriptor.total_length⟩ with
      | .error _ =>
        (.transferFailed,
          [⟨2, 0, 0, 9⟩, ⟨2, 0, 0, config_descriptor.total_length⟩])
      | .ok r2 =>
        (.chain (collectDescriptors
            (fillBuf r2 config_descriptor.total_length)),
          [⟨2, 0, 0, 9⟩, ⟨2, 0, 0, config_descriptor.total_length⟩])

/-- Claim C7: the fetch is two-phase.  For every controller whose two
transfers succeed, the request trace is exactly a first request with a
9-byte buffer (the fixed Config header size) followed by a second
request whose buffer length equals the total_length decoded from the
first response, and the returned outcome is the chain decode of the
full second buffer. -/
theorem c7_two_phase_config_fetch
    (ctrl : DescRequest → Except Unit (List Nat)) (r1 r2 : List Nat)
    (cfg : ConfigDescriptor)
    (h1 : ctrl ⟨2, 0, 0, 9⟩ = .ok r1)
    (hcfg : ConfigDescriptor.copy_from_slice (fillBuf r1 9) = .ok cfg)
    (h2 : ctrl ⟨2, 0, 0, cfg.total_length⟩ = .ok r2) :
    request_config_descriptor_and_rest ctrl =
      (.chain (collectDescriptors (fillBuf r2 cfg.total_length)),
        [⟨2, 0, 0, 9⟩, ⟨2, 0, 0, cfg.total_length⟩]) := by
  unfold request_config_descriptor_and_rest
  simp only [h1, hcfg, h2]

/-- The 26-byte chain the witness controller serves: a Config header
declaring total_length 26, an Interface record, and an 8-byte record
of the unrecognized type 7. -/
def demoChain : List Nat :=
  [9, 2, 26, 0, 1, 1, 0, 0, 50] ++ [9, 4, 0, 0, 1, 3, 1, 1, 0] ++
    [8, 7, 0, 0, 0, 0, 0, 0]

/-- A simulated controller: a 9-byte destination receives the Config
header declaring total_length 26; any other destination receives the
full 26-byte chain. -/
def demoController (r : DescRequest) : Except Unit (List Nat) :=
  if r.buf_len = 9 then .ok [9, 2, 26, 0, 1, 1, 0, 0, 50] else .ok demoChain

/-- Witness for claim C7: the simulated controller declaring
total_length 26 on the first request is re-queried with a 26-byte
buffer, and the decoded chain spans exactly the three records of those
26 bytes. -/
theorem c7_two_phase_config_fetch_witness :
    demoController ⟨2, 0, 0, 9⟩ = .ok [9, 2, 26, 0, 1, 1, 0, 0, 50] ∧
    request_config_descriptor_and_rest demoController =
      (.chain (.ok [.config ⟨9, 2, 26, 1, 1, 0, 0, 50⟩,
          .interface ⟨9, 4, 0, 0, 1, 3, 1, 1, 0⟩, .unknown 8 7]),
        [⟨2, 0, 0, 9⟩, ⟨2, 0, 0, 26⟩]) := by
  have h := c7_two_phase_config_fetch demoController
    [9, 2, 26, 0, 1, 1, 0, 0, 50] demoChain ⟨9, 2, 26, 1, 1, 0, 0, 50⟩
    rfl rfl rfl
  refine ⟨rfl, ?_⟩
  rw [h]
  decide
